import Mathlib

/-!
Verification of the configuration-resolution and error-message model of the
arktype repository (docs `src/ark/docs/content/docs/configuration/index.mdx`)
and of the `SearchInput` component
(`src/pkgs/redo-app/src/renderer/components/custom/SearchInput.tsx`).

The arktype library implementation itself is not part of the provided source
tree; the configuration system is therefore modelled from the specification
prose, faithful to its words. The `SearchInput` component is embedded from
its source.
-/

set_option autoImplicit false

namespace ArkConfig

/-- The four configuration levels, ordered by precedence
`typeLevel > scopeLevel > globalLevel > defaultLevel`. -/
inductive ConfigLevel where
  | defaultLevel
  | globalLevel
  | scopeLevel
  | typeLevel
deriving DecidableEq, Repr

/-- A partial configuration: an assignment of option keys to values,
with `none` meaning the key is unset at this level. -/
def PartialConfig (K V : Type) : Type := K → Option V

/-- A fully populated configuration: every key is bound. -/
def FullConfig (K V : Type) : Type := K → V

/-- Modelled from the spec: the Configuration Resolver
`resolve(level, localOptions, parentChain) -> EffectiveConfig`.
The arktype implementation is not in the source tree; this follows the
specification words: every key is resolved by taking the most specific
explicitly-set value found walking outward along the chain
(local options first, then each broader level in order), falling back to
the always-fully-populated default level. -/
def resolve {K V : Type} (localOpts : PartialConfig K V)
    (parentChain : List (PartialConfig K V)) (dflt : FullConfig K V) :
    FullConfig K V :=
  fun k => (((localOpts :: parentChain).map (fun c => c k)).findSome? id).getD (dflt k)

/-- The effective configuration of a Type: its own options layered over the
scope options, the global options and the built-in defaults. -/
def effectiveConfig {K V : Type} (typeOpts scopeOpts globalOpts : PartialConfig K V)
    (dflt : FullConfig K V) : FullConfig K V :=
  resolve typeOpts [scopeOpts, globalOpts] dflt

theorem findSome_id_cons {V : Type} (o : Option V) (l : List (Option V)) :
    (o :: l).findSome? id = o.orElse (fun _ => l.findSome? id) := by
  cases o <;> simp [List.findSome?, Option.orElse]

theorem resolve_cons {K V : Type} (c : PartialConfig K V)
    (rest : List (PartialConfig K V)) (dflt : FullConfig K V) (k : K) :
    resolve c rest dflt k =
      match c k with
      | some v => v
      | none =>
        match rest with
        | [] => dflt k
        | p :: ps => resolve p ps dflt k := by
  cases h : c k with
  | some v => simp [resolve, findSome_id_cons, h, Option.orElse]
  | none =>
    cases rest with
    | nil => simp [resolve, List.findSome?, h]
    | cons p ps => simp [resolve, findSome_id_cons, h, Option.orElse]

/-- C1: for every option key, the effective configuration binds the key to
the value set at the most specific level that explicitly sets it, in
precedence order type > scope > global > default; keys unset at a level
inherit from the next broader level, and the default level supplies a value
for every key (the result is a total function, so no field is unset). -/
theorem effectiveConfig_precedence {K V : Type}
    (t s g : PartialConfig K V) (d : FullConfig K V) (k : K) :
    (∀ v, t k = some v → effectiveConfig t s g d k = v) ∧
    (t k = none → ∀ v, s k = some v → effectiveConfig t s g d k = v) ∧
    (t k = none → s k = none → ∀ v, g k = some v → effectiveConfig t s g d k = v) ∧
    (t k = none → s k = none → g k = none → effectiveConfig t s g d k = d k) := by
  refine ⟨?_, ?_, ?_, ?_⟩
  · intro v ht
    simp [effectiveConfig, resolve_cons, ht]
  · intro ht v hs
    simp [effectiveConfig, resolve_cons, ht, hs]
  · intro ht hs v hg
    simp [effectiveConfig, resolve_cons, ht, hs, hg]
  · intro ht hs hg
    simp [effectiveConfig, resolve_cons, ht, hs, hg]

/-- Example partial config setting key 0 to 5 at the type level. -/
def tEx : PartialConfig Nat Nat := fun k => if k = 0 then some 5 else none

/-- Example partial config setting keys 0 and 1 at the scope level. -/
def sEx : PartialConfig Nat Nat := fun k => if k ≤ 1 then some 7 else none

/-- Example partial config setting keys 0, 1 and 2 at the global level. -/
def gEx : PartialConfig Nat Nat := fun k => if k ≤ 2 then some 9 else none

/-- Example fully populated default config. -/
def dEx : FullConfig Nat Nat := fun _ => 1

/-- Witness for C1: concrete resolution at each of the four precedence cases. -/
theorem effectiveConfig_precedence_witness :
    effectiveConfig tEx sEx gEx dEx 0 = 5 ∧
    effectiveConfig tEx sEx gEx dEx 1 = 7 ∧
    effectiveConfig tEx sEx gEx dEx 2 = 9 ∧
    effectiveConfig tEx sEx gEx dEx 3 = 1 :=
  ⟨(effectiveConfig_precedence tEx sEx gEx dEx 0).1 5 rfl,
   (effectiveConfig_precedence tEx sEx gEx dEx 1).2.1 rfl 7 rfl,
   (effectiveConfig_precedence tEx sEx gEx dEx 2).2.2.1 rfl rfl 9 rfl,
   (effectiveConfig_precedence tEx sEx gEx dEx 3).2.2.2 rfl rfl rfl⟩

/-- Modelled from the spec: a process-level event — either an application of
global configuration via the `configure` entry point, or the parsing of a
Type with its locally supplied options. -/
inductive Event (K V : Type) where
  | configure (opts : PartialConfig K V)
  | parse (id : Nat) (opts : PartialConfig K V)

/-- Modelled from the spec: applying a partial configuration at the global
level — newly supplied keys override the previous global state, keys the
call leaves unset keep their previous global value. -/
def applyGlobal {K V : Type} (g opts : PartialConfig K V) : PartialConfig K V :=
  fun k => (opts k).orElse (fun _ => g k)

/-- Modelled from the spec: run a sequence of events starting from a global
state. Resolution happens at parse time: each parsed Type captures its
effective configuration (its own options over the global state current at
that moment, over the defaults) as an immutable snapshot. -/
def run {K V : Type} (dflt : FullConfig K V) :
    PartialConfig K V → List (Event K V) → List (Nat × FullConfig K V)
  | _, [] => []
  | g, Event.configure o :: es => run dflt (applyGlobal g o) es
  | g, Event.parse i o :: es => (i, resolve o [g] dflt) :: run dflt g es

/-- The global state after a sequence of events. -/
def globalAfter {K V : Type} : PartialConfig K V → List (Event K V) → PartialConfig K V
  | g, [] => g
  | g, Event.configure o :: es => globalAfter (applyGlobal g o) es
  | g, Event.parse _ _ :: es => globalAfter g es

/-- C2: applying global configuration never changes an already-parsed Type.
Inserting a `configure` call into a trace leaves every snapshot captured
before the call untouched (the prefix of the run is literally the run of the
prefix trace without the call), and changes the global state only for Types
parsed after the call. -/
theorem configure_not_retroactive {K V : Type} (dflt : FullConfig K V)
    (g : PartialConfig K V) (t₁ t₂ : List (Event K V)) (c : PartialConfig K V) :
    run dflt g (t₁ ++ Event.configure c :: t₂) =
      run dflt g t₁ ++ run dflt (applyGlobal (globalAfter g t₁) c) t₂ := by
  induction t₁ generalizing g with
  | nil => simp [run, globalAfter]
  | cons e es ih =>
    cases e with
    | configure o => simp [run, globalAfter, ih]
    | parse i o => simp [run, globalAfter, ih]

end ArkConfig

namespace ArkErrors

/-- A runtime value: a string, a number, or an object with named fields. -/
inductive Value where
  | str (s : String)
  | num (n : Int)
  | obj (fields : List (String × Value))
deriving Repr

/-- Render a path of property-access steps, e.g. `["a", "b"]` to `a.b`. -/
def propString : List String → String
  | [] => ""
  | [k] => k
  | k :: ks => k ++ "." ++ propString ks

/-- Modelled from the spec: the read-only `ErrorContext` record exposed to the
message-assembly functions: the `code` of the failed constraint, its `rule`
parameter, the offending `data`, and the `path` from the root. -/
structure ErrorCtx where
  code : String
  rule : String
  data : Value
  path : List String

/-- Modelled from the spec: the composable error-message options.
`expectedByCode` models the code-keyed `expected` configuration available at
scope or global level; `expected` is the generic function; `none` everywhere
means the built-in behavior. -/
structure MsgCfg where
  description : Option String := none
  expectedByCode : String → Option (ErrorCtx → String) := fun _ => none
  expected : Option (ErrorCtx → String) := none
  actual : Option (Value → String) := none
  problem : Option (String → String → ErrorCtx → String) := none
  message : Option (String → ErrorCtx → String) := none

/-- Render a value for the built-in actual clause. -/
def render : Value → String
  | .str s => s
  | .num n => toString n
  | .obj _ => "an object"

/-- Built-in expected phrase completing the words (must be ___). -/
def defaultExpected (ctx : ErrorCtx) : String :=
  if ctx.code = "minLength" then "at least length " ++ ctx.rule else ctx.rule

/-- Built-in actual phrase completing the words (was ___). -/
def defaultActual (ctx : ErrorCtx) : String :=
  match ctx.code, ctx.data with
  | "minLength", .str s => toString s.length
  | _, v => render v

/-- Modelled from the spec: the expected function in force for an error code:
a code-keyed configuration applies only to that code and is consulted before
the generic configured function. -/
def effectiveExpected (cfg : MsgCfg) (code : String) : Option (ErrorCtx → String) :=
  (cfg.expectedByCode code).orElse (fun _ => cfg.expected)

/-- Modelled from the spec: stage 1 of the assembly pipeline, producing the
phrase completing (must be ___). A configured description is used verbatim
unless an expected function configured for this code takes precedence. -/
def stage1 (cfg : MsgCfg) (ctx : ErrorCtx) : String :=
  match effectiveExpected cfg ctx.code with
  | some f => f ctx
  | none => cfg.description.getD (defaultExpected ctx)

/-- Modelled from the spec: stage 2 of the assembly pipeline, producing the
phrase completing (was ___) from the offending value. -/
def stage2 (cfg : MsgCfg) (ctx : ErrorCtx) : String :=
  match cfg.actual with
  | some f => f ctx.data
  | none => defaultActual ctx

/-- Built-in combination of the expected and actual phrases: when the actual
phrase is empty, the (was ___) clause is omitted entirely. -/
def mkProblem (e a : String) : String :=
  if a = "" then "must be " ++ e else "must be " ++ e ++ " (was " ++ a ++ ")"

/-- Modelled from the spec: stage 3 combines the expected and actual outputs
into one sentence, through the configured problem function when present. -/
def stage3 (cfg : MsgCfg) (e a : String) (ctx : ErrorCtx) : String :=
  match cfg.problem with
  | some f => f e a ctx
  | none => mkProblem e a

/-- Modelled from the spec: stage 4 combines the problem output with the path
into the final reported string, through the configured message function when
present. -/
def stage4 (cfg : MsgCfg) (p : String) (ctx : ErrorCtx) : String :=
  match cfg.message with
  | some f => f p ctx
  | none => if ctx.path = [] then p else propString ctx.path ++ " " ++ p

/-- The full four-stage assembly of the message for a single leaf error. -/
def assembleLeaf (cfg : MsgCfg) (ctx : ErrorCtx) : String :=
  stage4 cfg (stage3 cfg (stage1 cfg ctx) (stage2 cfg ctx) ctx) ctx

/-- An error node: a single leaf failure, or a composite node aggregating the
leaf errors of a union or intersection. -/
inductive ErrNode where
  | leaf (ctx : ErrorCtx)
  | composite (leaves : List ErrorCtx)

/-- Built-in composite assembly joining the per-leaf problems. -/
def compositeJoin (ps : List String) : String :=
  String.intercalate " or " ps

/-- Modelled from the spec: assembling an error node. For a composite node
stages 3 and 4 are bypassed; stages 1 and 2 are still applied to each leaf
before composition by the built-in composite rule. -/
def assembleNode (cfg : MsgCfg) : ErrNode → String
  | .leaf ctx => assembleLeaf cfg ctx
  | .composite leaves =>
      compositeJoin (leaves.map (fun ctx => mkProblem (stage1 cfg ctx) (stage2 cfg ctx)))

/-- C4: when the configured actual function returns the empty string for a
leaf error (and stages 3 and 4 are not separately overridden), the final
assembled message is exactly the path-prefixed expected phrase, with no
(was ___) clause appended. -/
theorem actual_empty_omits_was_clause (cfg : MsgCfg) (ctx : ErrorCtx)
    (hp : cfg.problem = none) (hm : cfg.message = none)
    (ha : stage2 cfg ctx = "") :
    assembleLeaf cfg ctx =
      if ctx.path = [] then "must be " ++ stage1 cfg ctx
      else propString ctx.path ++ " " ++ ("must be " ++ stage1 cfg ctx) := by
  unfold assembleLeaf stage4 stage3 mkProblem
  rw [hp, hm, ha]
  by_cases h : ctx.path = [] <;> simp [h]

/-- The password example configuration: an actual function returning the
empty string, everything else built in. -/
def pwCfg : MsgCfg := { actual := some (fun _ => "") }

/-- The password example error context: a length-8 minimum violated by the
string ez123 at path password. -/
def pwCtx : ErrorCtx :=
  { code := "minLength", rule := "8", data := .str "ez123", path := ["password"] }

/-- Witness for C4: the example yields exactly the message
(password must be at least length 8) with no trailing parenthetical. -/
theorem actual_empty_omits_was_clause_witness :
    assembleLeaf pwCfg pwCtx = "password must be at least length 8" := by
  have h := actual_empty_omits_was_clause pwCfg pwCtx rfl rfl rfl
  rw [h]
  rfl

/-- C5: for a composite error node, stages 3 and 4 are bypassed — the
assembled output never consults the configured problem and message functions
(replacing them changes nothing) — while stages 1 and 2 are still applied to
each leaf error before composition. -/
theorem composite_bypasses_problem_message (cfg : MsgCfg)
    (p : Option (String → String → ErrorCtx → String))
    (m : Option (String → ErrorCtx → String)) (leaves : List ErrorCtx) :
    assembleNode { cfg with problem := p, message := m } (.composite leaves) =
        assembleNode cfg (.composite leaves) ∧
      assembleNode cfg (.composite leaves) =
        compositeJoin
          (leaves.map (fun ctx => mkProblem (stage1 cfg ctx) (stage2 cfg ctx))) := by
  constructor
  · simp [assembleNode, stage1, stage2, effectiveExpected]
  · rfl

/-- C9: stage 1 uses a configured description verbatim, except when an
expected function configured for the error code takes precedence. -/
theorem description_vs_expected (cfg : MsgCfg) (ctx : ErrorCtx) :
    (effectiveExpected cfg ctx.code = none →
      ∀ d, cfg.description = some d → stage1 cfg ctx = d) ∧
    (∀ f, effectiveExpected cfg ctx.code = some f → stage1 cfg ctx = f ctx) := by
  constructor
  · intro hnone d hd
    simp [stage1, hnone, hd]
  · intro f hf
    simp [stage1, hf]

/-- A configuration carrying only a description. -/
def descCfg : MsgCfg := { description := some "a valid password" }

/-- A configuration carrying a description and an expected function. -/
def descExpCfg : MsgCfg :=
  { description := some "a valid password",
    expected := some (fun ctx => ctx.rule ++ " characters or better") }

/-- Witness for C9: the description is used verbatim when no expected
function is configured, and the expected function wins when one is. -/
theorem description_vs_expected_witness :
    stage1 descCfg pwCtx = "a valid password" ∧
    stage1 descExpCfg pwCtx = "8 characters or better" :=
  ⟨(description_vs_expected descCfg pwCtx).1 rfl "a valid password" rfl,
   (description_vs_expected descExpCfg pwCtx).2
     (fun ctx => ctx.rule ++ " characters or better") rfl⟩

/-- A single validation failure: the constraint code and rule, the offending
data, the path from the root, and the message configuration in force where
the failure was produced. -/
structure ArkError where
  path : List String
  code : String
  rule : String
  data : Value
  cfg : MsgCfg

/-- The error context exposed to the message-assembly functions. -/
def ArkError.ctx (e : ArkError) : ErrorCtx :=
  ⟨e.code, e.rule, e.data, e.path⟩

/-- The message of an error, assembled with the configuration in force when
the error was produced. -/
def errorMessage (e : ArkError) : String :=
  assembleLeaf e.cfg e.ctx

/-- Modelled from the spec: a Type — a leaf constraint, or a composite
object type with named fields, each carrying the message configuration
captured when it was declared. -/
inductive ArkTy where
  | leaf (code rule : String) (check : Value → Bool) (cfg : MsgCfg)
  | obj (fields : List (String × ArkTy)) (cfg : MsgCfg)

/-- The message configuration captured at the root of a Type. -/
def ArkTy.config : ArkTy → MsgCfg
  | .leaf _ _ _ c => c
  | .obj _ c => c

mutual

/-- Modelled from the spec: validation. A leaf checks its constraint and on
failure reports an error at the empty path carrying its own configuration.
An object type reports a root (empty-path) error with its own configuration
when the input is not an object, and otherwise validates each declared field
with the field type, prefixing the key to every resulting path. -/
def validate : ArkTy → Value → List ArkError
  | .leaf code rule check cfg, v =>
      if check v then [] else [⟨[], code, rule, v, cfg⟩]
  | .obj fields _, .obj vf => validateFields fields vf
  | .obj _ cfg, v => [⟨[], "domain", "an object", v, cfg⟩]
termination_by t _ => sizeOf t

/-- Validate the declared fields of an object against the input fields;
every error produced here lies at a nonempty path and carries the
configuration of the sub-type that produced it. -/
def validateFields : List (String × ArkTy) → List (String × Value) → List ArkError
  | [], _ => []
  | (k, sub) :: rest, vf =>
      (match List.lookup k vf with
       | some sv => (validate sub sv).map (fun e => { e with path := k :: e.path })
       | none => [⟨[k], "required", "provided", Value.obj vf, sub.config⟩]) ++
        validateFields rest vf
termination_by fs _ => sizeOf fs

end

theorem validateFields_path_ne_nil (fs : List (String × ArkTy))
    (vf : List (String × Value)) : ∀ e ∈ validateFields fs vf, e.path ≠ [] := by
  induction fs with
  | nil => simp [validateFields]
  | cons p rest ih =>
    obtain ⟨k, sub⟩ := p
    intro e he
    rw [validateFields] at he
    rcases List.mem_append.mp he with h | h
    · cases hl : List.lookup k vf with
      | some sv =>
        rw [hl] at h
        obtain ⟨e₀, _, rfl⟩ := List.mem_map.mp h
        simp
      | none =>
        rw [hl] at h
        simp at h
        subst h
        simp
    · exact ih e h

/-- C3: configuring a composite object type at its root is shallow. The
errors at nonempty paths — those produced while validating nested
sub-types — are identical whatever the root configuration is, and so are
their assembled messages; every error the type reports at the empty path
carries the root configuration itself. -/
theorem configure_shallow (fields : List (String × ArkTy)) (cfg cfg' : MsgCfg)
    (v : Value) :
    ((validate (.obj fields cfg) v).filter (fun e => !e.path.isEmpty) =
      (validate (.obj fields cfg') v).filter (fun e => !e.path.isEmpty)) ∧
    (((validate (.obj fields cfg) v).filter (fun e => !e.path.isEmpty)).map
        errorMessage =
      ((validate (.obj fields cfg') v).filter (fun e => !e.path.isEmpty)).map
        errorMessage) ∧
    ∀ e ∈ validate (.obj fields cfg) v, e.path = [] → e.cfg = cfg := by
  have hmain :
      (validate (.obj fields cfg) v).filter (fun e => !e.path.isEmpty) =
        (validate (.obj fields cfg') v).filter (fun e => !e.path.isEmpty) := by
    cases v with
    | obj vf => rw [validate, validate]
    | str s => simp [validate]
    | num n => simp [validate]
  refine ⟨hmain, congrArg (List.map errorMessage) hmain, ?_⟩
  cases v with
  | obj vf =>
    intro e he hpath
    rw [validate] at he
    exact absurd hpath (validateFields_path_ne_nil fields vf e he)
  | str s =>
    intro e he _
    simp only [validate] at he
    simp at he
    subst he
    rfl
  | num n =>
    intro e he _
    simp only [validate] at he
    simp at he
    subst he
    rfl

/-- The password leaf type of the docs example: a string of length at
least 8, with its own (default) configuration. -/
def pwLeaf : ArkTy :=
  .leaf "minLength" "8"
    (fun v => match v with | .str s => decide (8 ≤ s.length) | _ => false) {}

/-- The user object type fields of the docs example. -/
def userFields : List (String × ArkTy) := [("password", pwLeaf)]

/-- A root message configuration for the user type. -/
def rootMsgCfg : MsgCfg := { message := some (fun p _ => "root: " ++ p) }

/-- Witness for C3: validating a non-object at the root of the configured
user type produces a root error carrying the root configuration, while the
nested password failure is identical with and without the root
configuration. -/
theorem configure_shallow_witness :
    ((validate (.obj userFields rootMsgCfg)
          (.obj [("password", .str "ez123")])).filter
        (fun e => !e.path.isEmpty) =
      (validate (.obj userFields {}) (.obj [("password", .str "ez123")])).filter
        (fun e => !e.path.isEmpty)) ∧
    (⟨[], "domain", "an object", .str "ez123", rootMsgCfg⟩ : ArkError).cfg =
      rootMsgCfg :=
  ⟨(configure_shallow userFields rootMsgCfg {}
      (.obj [("password", .str "ez123")])).1,
   (configure_shallow userFields rootMsgCfg {} (.str "ez123")).2.2
     ⟨[], "domain", "an object", .str "ez123", rootMsgCfg⟩
     (by simp only [validate]; exact List.mem_singleton.mpr rfl) rfl⟩

/-- Modelled from the spec: the three behaviors for keys of the input not
present in the declared shape. -/
inductive UndeclaredKeyBehavior where
  | ignore
  | delete
  | reject
deriving DecidableEq, Repr

/-- A declared object shape: each key with its validator, which returns the
(possibly morphed) value on success and `none` on failure. -/
def Shape : Type := List (String × (Value → Option Value))

/-- Modelled from the spec: object validation over the input fields under an
undeclared-key behavior. A declared key is validated and its (possibly
morphed) value kept; an undeclared key is passed through under `ignore`,
dropped with no error under `delete`, and reported under `reject`. The
result is the list of offending keys and the output fields. -/
def validateKeys (b : UndeclaredKeyBehavior) (shape : Shape) :
    List (String × Value) → List String × List (String × Value)
  | [] => ([], [])
  | (k, v) :: rest =>
    let r := validateKeys b shape rest
    match List.lookup k shape with
    | some f =>
      match f v with
      | some v2 => (r.1, (k, v2) :: r.2)
      | none => (k :: r.1, r.2)
    | none =>
      match b with
      | .ignore => (r.1, (k, v) :: r.2)
      | .delete => (r.1, r.2)
      | .reject => (k :: r.1, r.2)

/-- C6: under `onUndeclaredKey: delete`, when every declared key of the
input validates, no error is reported, the output is exactly the declared
projection of the input with its (possibly morphed) values, and every
undeclared input key is absent from the output. -/
theorem onUndeclaredKey_delete_exact (shape : Shape) (input : List (String × Value))
    (h : ∀ p ∈ input, ∀ f, List.lookup p.1 shape = some f → f p.2 ≠ none) :
    (validateKeys .delete shape input).1 = [] ∧
    (validateKeys .delete shape input).2 =
      input.filterMap (fun p =>
        (List.lookup p.1 shape).bind (fun f => (f p.2).map (fun v2 => (p.1, v2)))) ∧
    ∀ p ∈ input, List.lookup p.1 shape = none →
      ∀ w, (p.1, w) ∉ (validateKeys .delete shape input).2 := by
  have hmain :
      (validateKeys .delete shape input).1 = [] ∧
      (validateKeys .delete shape input).2 =
        input.filterMap (fun p =>
          (List.lookup p.1 shape).bind
            (fun f => (f p.2).map (fun v2 => (p.1, v2)))) := by
    induction input with
    | nil => exact ⟨rfl, rfl⟩
    | cons p rest ih =>
      obtain ⟨k, v⟩ := p
      have hrest := ih (fun q hq => h q (List.mem_cons_of_mem _ hq))
      cases hl : List.lookup k shape with
      | some f =>
        cases hf : f v with
        | some v2 =>
          refine ⟨?_, ?_⟩
          · simp [validateKeys, hl, hf, hrest.1]
          · simp [validateKeys, hl, hf, hrest.2]
        | none =>
          exact absurd hf (h (k, v) (List.mem_cons_self _ _) f hl)
      | none =>
        refine ⟨?_, ?_⟩
        · simp [validateKeys, hl, hrest.1]
        · simp [validateKeys, hl, hrest.2]
  refine ⟨hmain.1, hmain.2, ?_⟩
  intro p hp hundeclared w hmem
  rw [hmain.2] at hmem
  obtain ⟨q, _, hq⟩ := List.mem_filterMap.mp hmem
  cases hql : List.lookup q.1 shape with
  | none => rw [hql] at hq; simp at hq
  | some f =>
    rw [hql] at hq
    have hq2 : Option.map (fun v2 => (q.1, v2)) (f q.2) = some (p.1, w) := hq
    cases hfv : f q.2 with
    | none =>
      rw [hfv] at hq2
      exact Option.noConfusion hq2
    | some v2 =>
      rw [hfv] at hq2
      have hpair : some (q.1, v2) = some (p.1, w) := hq2
      obtain ⟨hkey, -⟩ := Prod.mk.inj (Option.some.inj hpair)
      rw [← hkey] at hundeclared
      rw [hundeclared] at hql
      exact Option.noConfusion hql

/-- The shape of the docs example: one declared key `name` taking any
string value unchanged. -/
def nameShape : Shape := [("name", fun v => some v)]

/-- The docs example input with the undeclared key `age`. -/
def aliceInput : List (String × Value) :=
  [("name", .str "Alice"), ("age", .str "42")]

/-- Witness for C6: the docs example yields output with exactly the declared
key and no error. -/
theorem onUndeclaredKey_delete_exact_witness :
    (validateKeys .delete nameShape aliceInput).1 = [] ∧
    (validateKeys .delete nameShape aliceInput).2 = [("name", Value.str "Alice")] := by
  have h : ∀ p ∈ aliceInput, ∀ f, List.lookup p.1 nameShape = some f →
      f p.2 ≠ none := by
    intro p hp f hf
    simp [aliceInput] at hp
    rcases hp with rfl | rfl
    · simp [nameShape, List.lookup] at hf
      rw [← hf]
      simp
    · simp [nameShape, List.lookup] at hf
  have hthm := onUndeclaredKey_delete_exact nameShape aliceInput h
  exact ⟨hthm.1, by rw [hthm.2.1]; rfl⟩

/-- Modelled from the spec: the clone option — the literal `false`
(`disabled`, mutate the input in place) or a user-provided clone
implementation; absence of the option (`none`) selects the built-in
deep clone. -/
inductive CloneSetting where
  | disabled
  | cloneWith (f : Value → Value)

mutual

/-- Modelled from the spec: the built-in deep clone. -/
def deepClone : Value → Value
  | .str s => .str s
  | .num n => .num n
  | .obj fs => .obj (deepCloneFields fs)
termination_by v => sizeOf v

/-- Deep-clone each field value. -/
def deepCloneFields : List (String × Value) → List (String × Value)
  | [] => []
  | (k, v) :: rest => (k, deepClone v) :: deepCloneFields rest
termination_by fs => sizeOf fs

end

/-- Modelled from the spec: run a morph under the effective clone option.
The first component is the value the caller receives as output; the second
is the state of the original input object afterwards — with `disabled`
(clone set to the literal false) the morph operates on the original in
place, otherwise it operates on a copy and the original is untouched. -/
def applyMorph (cloneCfg : Option CloneSetting) (morph : Value → Value)
    (input : Value) : Value × Value :=
  match cloneCfg with
  | some .disabled => (morph input, morph input)
  | some (.cloneWith f) => (morph (f input), input)
  | none => (morph (deepClone input), input)

/-- Parse the decimal digits of a string into a number. -/
def strToInt (s : String) : Int :=
  (s.data.foldl (fun acc c => acc * 10 + (c.toNat - 48)) 0 : Nat)

/-- Parse a string value into a number. -/
def parseNum : Value → Value
  | .str s => .num (strToInt s)
  | v => v

/-- The docs example morph: parse the `age` field of an object. -/
def parseAgeMorph : Value → Value
  | .obj fs => .obj (fs.map (fun p => if p.1 = "age" then (p.1, parseNum p.2) else p))
  | v => v

/-- The docs example input object. -/
def ageInput : Value := .obj [("age", .str "42")]

/-- C7: with clone set to the literal false the morph mutates the original
input in place — afterwards the original equals the morphed output, and in
the docs example its age field is now numeric — while with a provided clone
function or the built-in deep clone the original input is left unchanged. -/
theorem clone_false_mutates_input (morph : Value → Value) (input : Value) :
    (applyMorph (some .disabled) morph input).2 = morph input ∧
    (applyMorph (some .disabled) morph input).1 =
      (applyMorph (some .disabled) morph input).2 ∧
    (∀ f, (applyMorph (some (.cloneWith f)) morph input).2 = input) ∧
    (applyMorph none morph input).2 = input ∧
    (applyMorph (some .disabled) parseAgeMorph ageInput).2 =
      .obj [("age", .num 42)] := by
  refine ⟨rfl, rfl, fun f => rfl, rfl, ?_⟩
  rfl

end ArkErrors

namespace ArkByCode

/-- Modelled from the spec: the error configuration present at one level —
a code-keyed mapping consulted for errors carrying that code, and a generic
(non-code-keyed) configuration. -/
structure LevelCfg (A : Type) where
  byCode : String → Option A
  generic : Option A

/-- Modelled from the spec: resolve the configuration for an error code
across the levels (most specific first): at each level the code-keyed entry
for this code is consulted before the generic entry, before moving to the
next broader level. -/
def lookupErrCfg {A : Type} (levels : List (LevelCfg A)) (code : String) : Option A :=
  levels.findSome? (fun L => (L.byCode code).orElse (fun _ => L.generic))

theorem lookupErrCfg_cons {A : Type} (L : LevelCfg A) (ls : List (LevelCfg A))
    (code : String) :
    lookupErrCfg (L :: ls) code =
      ((L.byCode code).orElse (fun _ => L.generic)).orElse
        (fun _ => lookupErrCfg ls code) := by
  cases hb : L.byCode code with
  | some v => simp [lookupErrCfg, List.findSome?, hb, Option.orElse]
  | none =>
    cases hg : L.generic with
    | some w => simp [lookupErrCfg, List.findSome?, hb, hg, Option.orElse]
    | none => simp [lookupErrCfg, List.findSome?, hb, hg, Option.orElse]

theorem lookupErrCfg_map_eq {A : Type} :
    ∀ (levels levels' : List (LevelCfg A)) (code : String),
      levels.map (fun L => (L.byCode code, L.generic)) =
        levels'.map (fun L => (L.byCode code, L.generic)) →
      lookupErrCfg levels code = lookupErrCfg levels' code := by
  intro levels
  induction levels with
  | nil =>
    intro ls' code hmap
    cases ls' with
    | nil => rfl
    | cons L' ls2 => simp at hmap
  | cons L ls ih =>
    intro ls' code hmap
    cases ls' with
    | nil => simp at hmap
    | cons L' ls2 =>
      simp at hmap
      obtain ⟨⟨hbc, hg⟩, hrest⟩ := hmap
      rw [lookupErrCfg_cons, lookupErrCfg_cons, hbc, hg, ih ls2 code hrest]

theorem lookupErrCfg_byCode_first {A : Type} :
    ∀ (levels : List (LevelCfg A)) (code : String) (i : Nat)
      (hi : i < levels.length) (v : A),
      (levels.get ⟨i, hi⟩).byCode code = some v →
      (∀ j (hj : j < i),
        (levels.get ⟨j, lt_trans hj hi⟩).byCode code = none ∧
          (levels.get ⟨j, lt_trans hj hi⟩).generic = none) →
      lookupErrCfg levels code = some v := by
  intro levels
  induction levels with
  | nil =>
    intro code i hi
    exact absurd hi (Nat.not_lt_zero i)
  | cons L ls ih =>
    intro code i hi v hset hbefore
    cases i with
    | zero =>
      have hL : L.byCode code = some v := hset
      rw [lookupErrCfg_cons, hL]
      rfl
    | succ i2 =>
      have h0 := hbefore 0 (Nat.succ_pos i2)
      have hb : L.byCode code = none := h0.1
      have hg : L.generic = none := h0.2
      rw [lookupErrCfg_cons, hb, hg]
      have hrec := ih code i2 (Nat.lt_of_succ_lt_succ hi) v hset
        (fun j hj => hbefore (j + 1) (Nat.succ_lt_succ hj))
      simpa [Option.orElse] using hrec

/-- C8: a code-keyed configuration applies only to errors carrying that code
— the resolution for a code depends only on the entries under that code and
the generic entries — and for an error carrying the code it is consulted
before any generic configuration at the same or a broader level: when a
level sets the code and no strictly more specific level sets the code or a
generic entry, that code-keyed value wins regardless of same-level or
broader generic entries. -/
theorem byCode_selective_precedence {A : Type}
    (levels levels' : List (LevelCfg A)) (code : String) (i : Nat)
    (hi : i < levels.length) (v : A) :
    (levels.map (fun L => (L.byCode code, L.generic)) =
        levels'.map (fun L => (L.byCode code, L.generic)) →
      lookupErrCfg levels code = lookupErrCfg levels' code) ∧
    ((levels.get ⟨i, hi⟩).byCode code = some v →
      (∀ j (hj : j < i),
        (levels.get ⟨j, lt_trans hj hi⟩).byCode code = none ∧
          (levels.get ⟨j, lt_trans hj hi⟩).generic = none) →
      lookupErrCfg levels code = some v) :=
  ⟨lookupErrCfg_map_eq levels levels' code,
   fun hset hbefore => lookupErrCfg_byCode_first levels code i hi v hset hbefore⟩

/-- The scope-level configuration of the docs example: a code-keyed entry
for the divisor code together with a same-level generic entry. -/
def scopeLevelCfg : LevelCfg Nat :=
  ⟨fun c => if c = "divisor" then some 1 else none, some 2⟩

/-- A broader level carrying only a generic entry. -/
def globalLevelCfg : LevelCfg Nat := ⟨fun _ => none, some 3⟩

/-- Witness for C8: the code-keyed entry wins over the same-level and the
broader generic entry for an error carrying the code. -/
theorem byCode_selective_precedence_witness :
    lookupErrCfg [scopeLevelCfg, globalLevelCfg] "divisor" = some 1 :=
  (byCode_selective_precedence [scopeLevelCfg, globalLevelCfg]
      [scopeLevelCfg, globalLevelCfg] "divisor" 0 (by decide) 1).2 rfl
    (fun j hj => absurd hj (Nat.not_lt_zero j))

end ArkByCode

namespace RedoApp

/-- The application store, with the `cardFilter` field written by
`SearchInput` and representative further fields standing for the rest of
the store state. -/
structure Store where
  cardFilter : String
  otherField : Nat
  anotherField : Bool

/-- A partial update passed to `Store.mutate`: only the fields present are
written. -/
structure StorePatch where
  cardFilter : Option String := none
  otherField : Option Nat := none
  anotherField : Option Bool := none

/-- Apply a partial update to the store: each field present in the patch is
written, every other field keeps its current value. -/
def Store.mutate (s : Store) (p : StorePatch) : Store :=
  { cardFilter := p.cardFilter.getD s.cardFilter,
    otherField := p.otherField.getD s.otherField,
    anotherField := p.anotherField.getD s.anotherField }

/-- A change event carrying the current value of the target input element. -/
structure ChangeEvent where
  targetValue : String

/-- Embedded from `SearchInput.tsx`: the default change handler calls
`store.mutate` with an object whose only key is `cardFilter`, bound to the
event target value. -/
def onChange (event : ChangeEvent) (s : Store) : Store :=
  Store.mutate s { cardFilter := some event.targetValue }

/-- The props `SearchInput` passes to the underlying `TextInput`. -/
structure TextInputProps where
  variant : String
  onChangeHandler : ChangeEvent → Store → Store

/-- The caller-supplied rest props of `SearchInput`; an `onChange` present
here is spread after the default handler in the object literal and hence
replaces it. -/
structure SearchInputProps where
  onChangeHandler : Option (ChangeEvent → Store → Store) := none

/-- Embedded from `SearchInput.tsx`: the component renders a `TextInput`
with the underlined variant and the object spread that puts the default
handler first and the rest props after it. -/
def SearchInput (rest : SearchInputProps) : TextInputProps :=
  { variant := "underlined",
    onChangeHandler := rest.onChangeHandler.getD onChange }

/-- C10: the default change handler writes exactly `cardFilter` with the
event target value — every other store field is unchanged — and since the
rest props are spread after the default handler, a caller-supplied handler
replaces it entirely, in which case the component writes nothing to
`cardFilter` beyond what the supplied handler does (a supplied handler that
leaves the store alone leaves `cardFilter` unchanged). -/
theorem searchInput_onChange_frame (ev : ChangeEvent) (s : Store)
    (h : ChangeEvent → Store → Store) :
    (onChange ev s).cardFilter = ev.targetValue ∧
    (onChange ev s).otherField = s.otherField ∧
    (onChange ev s).anotherField = s.anotherField ∧
    (SearchInput {}).onChangeHandler = onChange ∧
    (SearchInput { onChangeHandler := some h }).onChangeHandler = h ∧
    ((SearchInput { onChangeHandler := some (fun _ t => t) }).onChangeHandler
        ev s).cardFilter = s.cardFilter :=
  ⟨rfl, rfl, rfl, rfl, rfl, rfl⟩

end RedoApp
